import Mathlib

/-!
Shallow embedding of `src/expenses.py` (municipal expense aggregation for
TCE-SP open data).

An expense record carries the four fields the source reads from the CSV:
`ds_funcao_governo` (theme), `ds_subfuncao_governo` (subtheme),
`tp_despesa` (payment status) and `vl_despesa` (amount, modelled as a
rational).  A pandas DataFrame of expenses is modelled as the ordered list
of its records.  Grouped frames are modelled as association lists keyed by
the group key, in first-occurrence key order (the spec fixes no group
order: "Group order is unspecified (map semantics)"); `.loc` lookups that
can raise `KeyError` are modelled with `Except`, the missing key being the
error payload, exactly as a Python `KeyError` carries only the key.
`get_expenses` is network/filesystem I/O (download, unzip, CSV parse) and
is passed to the historical builders as an abstract `fetch` function, as
the spec treats the record source as an external interface.
-/

structure ExpenseRecord where
  ds_funcao_governo : String
  ds_subfuncao_governo : String
  tp_despesa : String
  vl_despesa : Rat
deriving DecidableEq

abbrev ExpenseTable := List ExpenseRecord

deriving instance DecidableEq for Except

/-- The paid-status marker `"Valor Pago"` (source line 39). -/
def paidStatus : String := "Valor Pago"

/-- Source `only_paid`: `df[df["tp_despesa"] == "Valor Pago"]`. -/
def only_paid (df : ExpenseTable) : ExpenseTable :=
  df.filter (fun r => r.tp_despesa == paidStatus)

/-- First-occurrence deduplication with an accumulator of already-seen
keys; this is the semantics of pandas `Series.unique()`. -/
def uniqueAux {α : Type} [DecidableEq α] (seen : List α) : List α → List α
  | [] => []
  | x :: xs => if x ∈ seen then uniqueAux seen xs else x :: uniqueAux (x :: seen) xs

/-- pandas `.unique()`: distinct values in first-occurrence order. -/
def unique {α : Type} [DecidableEq α] (l : List α) : List α := uniqueAux [] l

/-- Source `get_all_themes`: `df["ds_funcao_governo"].unique()`. -/
def get_all_themes (df : ExpenseTable) : List String :=
  unique (df.map (fun r => r.ds_funcao_governo))

/-- Source `get_all_subthemes_of`:
`df[df["ds_funcao_governo"] == theme]["ds_subfuncao_governo"].unique()`.
Note the source returns normally (an empty array) when no record has the
theme; there is no raise on this path. -/
def get_all_subthemes_of (df : ExpenseTable) (theme : String) : List String :=
  unique ((df.filter (fun r => r.ds_funcao_governo == theme)).map
    (fun r => r.ds_subfuncao_governo))

/-- Total amount of the records of `df` whose theme is `t` (the
`'vl_despesa': 'sum'` aggregate of one theme group). -/
def themeTotal (df : ExpenseTable) (t : String) : Rat :=
  ((df.filter (fun r => r.ds_funcao_governo == t)).map (fun r => r.vl_despesa)).sum

/-- Total amount of the records of `df` whose (theme, subtheme) pair is
`k` (the `'vl_despesa': 'sum'` aggregate of one composite group). -/
def pairTotal (df : ExpenseTable) (k : String × String) : Rat :=
  ((df.filter (fun r =>
      r.ds_funcao_governo == k.1 && r.ds_subfuncao_governo == k.2)).map
    (fun r => r.vl_despesa)).sum

/-- Source `group_by_theme`:
`df.groupby('ds_funcao_governo').agg({'vl_despesa': 'sum', 'ds_subfuncao_governo': 'unique'})`.
One entry per distinct theme, carrying the amount sum and the distinct
subthemes seen under that theme. -/
def group_by_theme (df : ExpenseTable) : List (String × Rat × List String) :=
  (unique (df.map (fun r => r.ds_funcao_governo))).map (fun t =>
    (t, themeTotal df t,
     unique ((df.filter (fun r => r.ds_funcao_governo == t)).map
       (fun r => r.ds_subfuncao_governo))))

/-- Source `group_by_theme_and_subtheme`:
`df.groupby(['ds_funcao_governo', 'ds_subfuncao_governo']).agg({'vl_despesa': 'sum'})`.
One entry per distinct (theme, subtheme) pair with its amount sum. -/
def group_by_theme_and_subtheme (df : ExpenseTable) : List ((String × String) × Rat) :=
  (unique (df.map (fun r => (r.ds_funcao_governo, r.ds_subfuncao_governo)))).map
    (fun k => (k, pairTotal df k))

/-- Source `group_by_subtheme`: `group_by_theme_and_subtheme(df).loc[theme]`.
`.loc` on the first level of the MultiIndex selects every row whose theme
is `theme` and drops that level; it raises `KeyError(theme)` when the
theme is absent from the index. -/
def group_by_subtheme (df : ExpenseTable) (theme : String) :
    Except String (List (String × Rat)) :=
  let sel := (group_by_theme_and_subtheme df).filter (fun p => p.1.1 == theme)
  if sel.isEmpty then Except.error theme
  else Except.ok (sel.map (fun p => (p.1.2, p.2)))

/-! ### Basic lemmas about `unique` and filtering -/

theorem mem_uniqueAux {α : Type} [DecidableEq α] (a : α) :
    ∀ (l seen : List α), a ∈ uniqueAux seen l ↔ a ∈ l ∧ a ∉ seen := by
  intro l
  induction l with
  | nil => intro seen; simp [uniqueAux]
  | cons x xs ih =>
    intro seen
    by_cases hx : x ∈ seen
    · simp only [uniqueAux, if_pos hx, ih, List.mem_cons]
      constructor
      · rintro ⟨h1, h2⟩; exact ⟨Or.inr h1, h2⟩
      · rintro ⟨h1 | h1, h2⟩
        · exact absurd (h1 ▸ hx) h2
        · exact ⟨h1, h2⟩
    · simp only [uniqueAux, if_neg hx, List.mem_cons, ih]
      by_cases hax : a = x
      · subst hax; simp [hx]
      · simp [hax]

theorem mem_unique {α : Type} [DecidableEq α] (a : α) (l : List α) :
    a ∈ unique l ↔ a ∈ l := by
  simp [unique, mem_uniqueAux]

theorem nodup_uniqueAux {α : Type} [DecidableEq α] :
    ∀ (l seen : List α), (uniqueAux seen l).Nodup := by
  intro l
  induction l with
  | nil => intro seen; simp [uniqueAux]
  | cons x xs ih =>
    intro seen
    by_cases hx : x ∈ seen
    · simpa [uniqueAux, hx] using ih seen
    · simp only [uniqueAux, if_neg hx, List.nodup_cons]
      refine ⟨fun hmem => ?_, ih (x :: seen)⟩
      exact ((mem_uniqueAux x xs (x :: seen)).1 hmem).2 (List.mem_cons_self x seen)

theorem nodup_unique {α : Type} [DecidableEq α] (l : List α) :
    (unique l).Nodup := nodup_uniqueAux l []

theorem mem_get_all_subthemes_of (df : ExpenseTable) (theme s : String) :
    s ∈ get_all_subthemes_of df theme ↔
      ∃ r ∈ df, r.ds_funcao_governo = theme ∧ r.ds_subfuncao_governo = s := by
  simp only [get_all_subthemes_of, mem_unique, List.mem_map, List.mem_filter]
  constructor
  · rintro ⟨r, ⟨hr, ht⟩, hs⟩
    exact ⟨r, hr, by simpa using ht, hs⟩
  · rintro ⟨r, hr, ht, hs⟩
    exact ⟨r, ⟨hr, by simpa using ht⟩, hs⟩

/-! ### C8 and C9: the payment filter -/

/-- Correctness statement for `only_paid`: it is an order-preserving
subsequence of the input, every record it keeps has the paid status, any
record with the paid status is kept with unchanged multiplicity, and the
empty table maps to the empty table. -/
def onlyPaidSpec (T : ExpenseTable) : Prop :=
  List.Sublist (only_paid T) T
  ∧ (∀ r ∈ only_paid T, r.tp_despesa = paidStatus)
  ∧ (∀ r : ExpenseRecord, r.tp_despesa = paidStatus →
      List.count r (only_paid T) = List.count r T)
  ∧ only_paid ([] : ExpenseTable) = []

/-- C8: `only_paid` returns exactly the subsequence of records whose
status equals the paid marker, preserving order; the empty table yields
the empty table. -/
theorem only_paid_exact_paid_subsequence (T : ExpenseTable) : onlyPaidSpec T := by
  refine ⟨List.filter_sublist T, fun r hr => ?_, fun r hr => ?_, rfl⟩
  · simpa using List.of_mem_filter hr
  · simp only [only_paid]
    rw [List.count_filter]
    simp [hr]

/-- C8 witness at a concrete table. -/
theorem only_paid_exact_paid_subsequence_witness :
    onlyPaidSpec [⟨"Health", "Hospitals", "Valor Pago", 100⟩,
                  ⟨"Health", "Clinics", "Empenhado", 50⟩] :=
  only_paid_exact_paid_subsequence _

/-- C9: `only_paid` is idempotent. -/
theorem only_paid_idempotent (T : ExpenseTable) :
    only_paid (only_paid T) = only_paid T := by
  simp [only_paid, List.filter_filter]

/-! ### Summation helpers for the grouping proofs -/

theorem sum_map_zero_fun {κ : Type} (ks : List κ) :
    (ks.map (fun _ => (0 : Rat))).sum = 0 := by
  induction ks with
  | nil => simp
  | cons x xs ih => simp [ih]

theorem sum_map_add_fun {κ : Type} (g h : κ → Rat) (ks : List κ) :
    (ks.map (fun t => g t + h t)).sum = (ks.map g).sum + (ks.map h).sum := by
  induction ks with
  | nil => simp
  | cons x xs ih => simp [ih]; ring

theorem sum_map_ite_of_not_mem {κ : Type} [DecidableEq κ] (a : κ) (c : Rat)
    (ks : List κ) (ha : a ∉ ks) :
    (ks.map (fun t => if a = t then c else 0)).sum = 0 := by
  induction ks with
  | nil => simp
  | cons x xs ih =>
    have hax : a ≠ x := by
      intro h
      exact ha (by simp [h])
    have hxs : a ∉ xs := fun h => ha (List.mem_cons_of_mem x h)
    simp [hax, ih hxs]

theorem sum_map_ite_of_mem {κ : Type} [DecidableEq κ] (a : κ) (c : Rat) :
    ∀ ks : List κ, ks.Nodup → a ∈ ks →
      (ks.map (fun t => if a = t then c else 0)).sum = c := by
  intro ks
  induction ks with
  | nil => intro _ h; simp at h
  | cons x xs ih =>
    intro hnd hmem
    rcases List.mem_cons.1 hmem with hax | hax
    · subst hax
      have : a ∉ xs := (List.nodup_cons.1 hnd).1
      simp [sum_map_ite_of_not_mem a c xs this]
    · have hne : a ≠ x := by
        rintro rfl
        exact (List.nodup_cons.1 hnd).1 hax
      simp only [List.map_cons, List.sum_cons, if_neg hne]
      rw [ih (List.nodup_cons.1 hnd).2 hax]
      simp

/-- Partition property of grouped sums: summing, over a duplicate-free key
list that covers every record, the amount total of each key group gives
the amount total of the whole table.  `P r t` is the Boolean predicate the
source filter uses, and is assumed to decide `key r = t`. -/
theorem sum_over_keys {α κ : Type} [DecidableEq κ] (key : α → κ)
    (P : α → κ → Bool) (hP : ∀ r t, P r t = true ↔ key r = t) (f : α → Rat) :
    ∀ (l : List α) (ks : List κ), ks.Nodup → (∀ r ∈ l, key r ∈ ks) →
      (ks.map (fun t => ((l.filter (fun r => P r t)).map f).sum)).sum
        = (l.map f).sum := by
  intro l
  induction l with
  | nil =>
    intro ks _ _
    simp only [List.filter_nil, List.map_nil, List.sum_nil]
    exact sum_map_zero_fun ks
  | cons r l ih =>
    intro ks hnd hcov
    have hcov2 : ∀ x ∈ l, key x ∈ ks := fun x hx => hcov x (List.mem_cons_of_mem r hx)
    have hstep : ∀ t ∈ ks,
        (((r :: l).filter (fun x => P x t)).map f).sum
          = (if key r = t then f r else 0)
            + ((l.filter (fun x => P x t)).map f).sum := by
      intro t _
      by_cases hkey : key r = t
      · have : P r t = true := (hP r t).2 hkey
        simp [List.filter_cons, this, hkey]
      · have : ¬ (P r t = true) := fun h => hkey ((hP r t).1 h)
        simp [List.filter_cons, this, hkey]
    rw [List.map_congr_left hstep, sum_map_add_fun]
    rw [sum_map_ite_of_mem (key r) (f r) ks hnd (hcov r (List.mem_cons_self r l))]
    rw [ih ks hnd hcov2]
    simp

/-- `find?` over an association list built by mapping a value function
over a key list: it finds the key iff the key is in the list.  `Q` is the
Boolean key test of the source lookup, assumed to decide equality with
`k`. -/
theorem find_map_keyval {κ β : Type} [DecidableEq κ] (Q : κ → Bool) (k : κ)
    (hQ : ∀ t, Q t = true ↔ t = k) (val : κ → β) :
    ∀ ks : List κ,
      ((ks.map (fun t => (t, val t))).find? (fun p => Q p.1))
        = if k ∈ ks then some (k, val k) else none := by
  intro ks
  induction ks with
  | nil => simp
  | cons t ts ih =>
    by_cases ht : Q t
    · have : t = k := (hQ t).1 ht
      subst this
      simp [List.find?, ht]
    · have hne : t ≠ k := fun h => ht ((hQ t).2 h)
      have hkt : ¬ (k = t) := fun h => hne h.symm
      simp only [List.map_cons, List.find?, ht, ih]
      by_cases hk : k ∈ ts
      · simp [hk, List.mem_cons]
      · simp [hk, List.mem_cons, hkt]

/-- `filter` past `map`. -/
theorem filter_of_map {α β : Type} (f : α → β) (p : β → Bool) :
    ∀ l : List α, (l.map f).filter p = (l.filter (fun a => p (f a))).map f := by
  intro l
  induction l with
  | nil => simp
  | cons x xs ih =>
    by_cases h : p (f x)
    · simp [List.filter_cons, h, ih]
    · simp [List.filter_cons, h, ih]

/-! ### Grouping lemmas -/

theorem mem_pair_keys (df : ExpenseTable) (k : String × String) :
    k ∈ unique (df.map fun r => (r.ds_funcao_governo, r.ds_subfuncao_governo))
      ↔ ∃ r ∈ df, r.ds_funcao_governo = k.1 ∧ r.ds_subfuncao_governo = k.2 := by
  rw [mem_unique]
  constructor
  · intro h
    rcases List.mem_map.1 h with ⟨r, hr, hk⟩
    exact ⟨r, hr, by rw [← hk], by rw [← hk]⟩
  · rintro ⟨r, hr, h1, h2⟩
    exact List.mem_map.2 ⟨r, hr, by rw [h1, h2]⟩

/-- The theme totals of `group_by_theme` sum to the amount total of the
whole table. -/
theorem group_by_theme_totals_sum (df : ExpenseTable) :
    ((group_by_theme df).map (fun g => g.2.1)).sum
      = (df.map (fun r => r.vl_despesa)).sum := by
  unfold group_by_theme
  rw [List.map_map]
  exact sum_over_keys (fun r : ExpenseRecord => r.ds_funcao_governo)
    (fun r t => r.ds_funcao_governo == t) (fun r t => by simp)
    (fun r => r.vl_despesa) df
    (unique (df.map fun r => r.ds_funcao_governo)) (nodup_unique _)
    (fun r hr => (mem_unique _ _).2 (List.mem_map_of_mem _ hr))

/-- `find?` on `group_by_theme` succeeds exactly on present themes. -/
theorem find_group_by_theme (df : ExpenseTable) (θ : String) :
    (group_by_theme df).find? (fun g => g.1 == θ)
      = if θ ∈ unique (df.map fun r => r.ds_funcao_governo)
        then some (θ, themeTotal df θ,
          unique ((df.filter (fun r => r.ds_funcao_governo == θ)).map
            (fun r => r.ds_subfuncao_governo)))
        else none := by
  unfold group_by_theme
  exact find_map_keyval (fun t => t == θ) θ (fun t => by simp)
    (fun t => (themeTotal df t,
      unique ((df.filter (fun r => r.ds_funcao_governo == t)).map
        (fun r => r.ds_subfuncao_governo)))) _

/-- The `.loc[theme]` selection underlying `group_by_subtheme`, rewritten
as a map over the filtered key list. -/
theorem group_by_subtheme_sel (df : ExpenseTable) (θ : String) :
    (group_by_theme_and_subtheme df).filter (fun p => p.1.1 == θ)
      = (((unique (df.map fun r => (r.ds_funcao_governo, r.ds_subfuncao_governo))).filter
          (fun k => k.1 == θ)).map (fun k => (k, pairTotal df k))) := by
  unfold group_by_theme_and_subtheme
  exact filter_of_map _ _ _

theorem group_by_subtheme_sel_empty_iff (df : ExpenseTable) (θ : String) :
    ((group_by_theme_and_subtheme df).filter (fun p => p.1.1 == θ)) = []
      ↔ ∀ r ∈ df, r.ds_funcao_governo ≠ θ := by
  rw [group_by_subtheme_sel, List.map_eq_nil_iff, List.filter_eq_nil_iff]
  constructor
  · intro h r hr hth
    have hk : (θ, r.ds_subfuncao_governo)
        ∈ unique (df.map fun x => (x.ds_funcao_governo, x.ds_subfuncao_governo)) :=
      (mem_pair_keys df _).2 ⟨r, hr, hth, rfl⟩
    exact (h _ hk) (by simp)
  · intro h k hk hk1
    rcases (mem_pair_keys df k).1 hk with ⟨r, hr, h1, _⟩
    exact h r hr (by rw [h1]; simpa using hk1)

/-- `group_by_subtheme` raises `KeyError(theme)` exactly when no record
has the theme. -/
theorem group_by_subtheme_error_iff (df : ExpenseTable) (θ : String) :
    group_by_subtheme df θ = Except.error θ ↔ ∀ r ∈ df, r.ds_funcao_governo ≠ θ := by
  unfold group_by_subtheme
  by_cases he : ((group_by_theme_and_subtheme df).filter (fun p => p.1.1 == θ)).isEmpty
  · simp only [he, if_true]
    simp only [List.isEmpty_iff] at he
    simpa using (group_by_subtheme_sel_empty_iff df θ).1 he
  · simp only [he]
    simp only [List.isEmpty_iff] at he
    simp only [Bool.false_eq_true, if_false]
    constructor
    · intro h; exact absurd h (by simp)
    · intro h; exact absurd ((group_by_subtheme_sel_empty_iff df θ).2 h) he

/-- `group_by_subtheme` on a present theme returns the selection. -/
theorem group_by_subtheme_ok (df : ExpenseTable) (θ : String)
    (h : ∃ r ∈ df, r.ds_funcao_governo = θ) :
    group_by_subtheme df θ = Except.ok
      (((group_by_theme_and_subtheme df).filter (fun p => p.1.1 == θ)).map
        (fun p => (p.1.2, p.2))) := by
  unfold group_by_subtheme
  have hne : ¬ ((group_by_theme_and_subtheme df).filter (fun p => p.1.1 == θ)).isEmpty := by
    rw [List.isEmpty_iff]
    intro hnil
    rcases h with ⟨r, hr, hth⟩
    exact (group_by_subtheme_sel_empty_iff df θ).1 hnil r hr hth
  simp only [hne, Bool.false_eq_true, if_false]

/-- Membership in the value list returned by `group_by_subtheme`. -/
theorem mem_subtheme_vals (df : ExpenseTable) (θ s : String) (v : Rat) :
    (s, v) ∈ (((group_by_theme_and_subtheme df).filter (fun p => p.1.1 == θ)).map
        (fun p => (p.1.2, p.2)))
      ↔ ((θ, s) ∈ unique (df.map fun r => (r.ds_funcao_governo, r.ds_subfuncao_governo))
          ∧ v = pairTotal df (θ, s)) := by
  rw [group_by_subtheme_sel, List.map_map]
  constructor
  · intro h
    rcases List.mem_map.1 h with ⟨k, hk, hks⟩
    rcases List.mem_filter.1 hk with ⟨hku, hk1⟩
    have hk1e : k.1 = θ := by simpa using hk1
    have hk2e : k.2 = s := by
      have := congrArg Prod.fst hks
      simpa using this
    have hkv : pairTotal df k = v := by
      have := congrArg Prod.snd hks
      simpa using this
    have hkeq : k = (θ, s) := by
      rw [← hk1e, ← hk2e]
    refine ⟨hkeq ▸ hku, ?_⟩
    rw [← hkv, hkeq]
  · rintro ⟨hk, hv⟩
    refine List.mem_map.2 ⟨(θ, s), List.mem_filter.2 ⟨hk, by simp⟩, ?_⟩
    simp [hv]

/-- Summing the per-subtheme totals of one theme gives the theme total. -/
theorem subtheme_vals_sum (df : ExpenseTable) (θ : String) :
    (((((group_by_theme_and_subtheme df).filter (fun p => p.1.1 == θ)).map
        (fun p => (p.1.2, p.2))).map (fun q => q.2)).sum) = themeTotal df θ := by
  rw [group_by_subtheme_sel, List.map_map, List.map_map]
  have hcomp : (((fun q : String × Rat => q.2) ∘ (fun p : (String × String) × Rat => (p.1.2, p.2)))
      ∘ (fun k : String × String => (k, pairTotal df k))) = fun k => pairTotal df k := rfl
  rw [hcomp]
  have hmain := sum_over_keys
    (fun r : ExpenseRecord => (r.ds_funcao_governo, r.ds_subfuncao_governo))
    (fun r k => r.ds_funcao_governo == k.1 && r.ds_subfuncao_governo == k.2)
    (fun r k => by simp [Prod.ext_iff])
    (fun r => r.vl_despesa)
    (df.filter (fun r => r.ds_funcao_governo == θ))
    ((unique (df.map fun r => (r.ds_funcao_governo, r.ds_subfuncao_governo))).filter
      (fun k => k.1 == θ))
    ((nodup_unique _).filter _)
    (by
      intro r hr
      rcases List.mem_filter.1 hr with ⟨hrdf, hrθ⟩
      refine List.mem_filter.2 ⟨(mem_unique _ _).2 (List.mem_map_of_mem _ hrdf), hrθ⟩)
  have hcong : ∀ k ∈ (unique (df.map fun r =>
        (r.ds_funcao_governo, r.ds_subfuncao_governo))).filter (fun k => k.1 == θ),
      pairTotal df k
        = (((df.filter (fun r => r.ds_funcao_governo == θ)).filter
            (fun r => r.ds_funcao_governo == k.1 && r.ds_subfuncao_governo == k.2)).map
          (fun r => r.vl_despesa)).sum := by
    intro k hk
    have hk1 : k.1 = θ := by simpa using (List.mem_filter.1 hk).2
    obtain ⟨k1, k2⟩ := k
    simp only at hk1
    subst hk1
    unfold pairTotal
    congr 1
    congr 1
    rw [List.filter_filter]
    apply List.filter_congr
    intro r hr
    cases h1 : (r.ds_funcao_governo == k1) <;> cases h2 : (r.ds_subfuncao_governo == k2) <;>
      simp [h1, h2]
  rw [List.map_congr_left hcong, hmain]
  rfl

/-! ### C1: theme totals of the paid table sum to the paid total -/

/-- C1: for every expense table `T`, the per-theme totals produced by
`group_by_theme` on the paid-filtered table sum to the total amount of
the records of `T` whose status is the paid marker. -/
theorem theme_totals_split_paid_total (T : ExpenseTable) :
    ((group_by_theme (only_paid T)).map (fun g => g.2.1)).sum
      = ((T.filter (fun r => r.tp_despesa == paidStatus)).map
          (fun r => r.vl_despesa)).sum :=
  group_by_theme_totals_sum (only_paid T)

/-! ### Sample tables used by the concrete instantiations -/

def sampleTable : ExpenseTable :=
  [⟨"Health", "Hospitals", "Valor Pago", 100⟩,
   ⟨"Health", "Clinics", "Valor Pago", 50⟩,
   ⟨"Education", "Schools", "Valor Pago", 30⟩,
   ⟨"Health", "Hospitals", "Empenhado", 999⟩]

def sampleShuffled : ExpenseTable :=
  [⟨"Health", "Hospitals", "Empenhado", 999⟩,
   ⟨"Education", "Schools", "Valor Pago", 30⟩,
   ⟨"Health", "Hospitals", "Valor Pago", 100⟩,
   ⟨"Health", "Clinics", "Valor Pago", 50⟩]

/-! ### C2: a theme total equals the sum of its subtheme totals -/

/-- The consistency property claimed for one theme: the total stored for
`θ` by `group_by_theme` equals the sum of the values returned by
`group_by_subtheme` for `θ`. -/
def themeSubthemeConsistent (T : ExpenseTable) (θ : String) : Prop :=
  ∃ tot subs vals,
    (group_by_theme T).find? (fun g => g.1 == θ) = some (θ, tot, subs)
    ∧ group_by_subtheme T θ = Except.ok vals
    ∧ tot = (vals.map (fun q => q.2)).sum

/-- C2: for every table `T` and theme `θ` present in `T`, the total that
`group_by_theme T` assigns to `θ` equals the sum of the per-subtheme
totals returned by `group_by_subtheme T θ`. -/
theorem theme_total_eq_sum_subtheme_totals (T : ExpenseTable) (θ : String)
    (h : ∃ r ∈ T, r.ds_funcao_governo = θ) : themeSubthemeConsistent T θ := by
  obtain ⟨r, hr, hth⟩ := h
  have hmem : θ ∈ unique (T.map fun x => x.ds_funcao_governo) :=
    (mem_unique _ _).2 (List.mem_map.2 ⟨r, hr, hth⟩)
  refine ⟨themeTotal T θ,
    unique ((T.filter (fun r => r.ds_funcao_governo == θ)).map
      (fun r => r.ds_subfuncao_governo)),
    ((group_by_theme_and_subtheme T).filter (fun p => p.1.1 == θ)).map
      (fun p => (p.1.2, p.2)),
    ?_, group_by_subtheme_ok T θ ⟨r, hr, hth⟩, ?_⟩
  · rw [find_group_by_theme, if_pos hmem]
  · exact (subtheme_vals_sum T θ).symm

/-- C2 witness at a concrete table and theme. -/
theorem theme_total_eq_sum_subtheme_totals_witness :
    themeSubthemeConsistent sampleTable "Health" :=
  theme_total_eq_sum_subtheme_totals sampleTable "Health" (by decide)

/-! ### C5: group_by_subtheme raises on an absent theme -/

/-- The successful case claimed for `group_by_subtheme`: it returns the
per-subtheme paid totals of the theme, one entry per distinct subtheme. -/
def subthemeOkSpec (T : ExpenseTable) (θ : String) : Prop :=
  ∃ vals, group_by_subtheme T θ = Except.ok vals ∧
    ∀ s v, ((s, v) ∈ vals ↔
      ((∃ r ∈ T, r.ds_funcao_governo = θ ∧ r.ds_subfuncao_governo = s)
        ∧ v = ((T.filter (fun r =>
            r.ds_funcao_governo == θ && r.ds_subfuncao_governo == s)).map
          (fun r => r.vl_despesa)).sum))

/-- C5: `group_by_subtheme T θ` fails with `KeyError(θ)` exactly when no
record of `T` has theme `θ`; when at least one record matches it returns
the per-subtheme totals for `θ`. -/
theorem group_by_subtheme_raises_or_totals (T : ExpenseTable) (θ : String) :
    (group_by_subtheme T θ = Except.error θ ↔ ∀ r ∈ T, r.ds_funcao_governo ≠ θ)
    ∧ ((∃ r ∈ T, r.ds_funcao_governo = θ) → subthemeOkSpec T θ) := by
  refine ⟨group_by_subtheme_error_iff T θ, fun h => ?_⟩
  refine ⟨_, group_by_subtheme_ok T θ h, ?_⟩
  intro s v
  rw [mem_subtheme_vals]
  constructor
  · rintro ⟨hk, hv⟩
    rcases (mem_pair_keys T (θ, s)).1 hk with ⟨r, hr, h1, h2⟩
    exact ⟨⟨r, hr, h1, h2⟩, hv⟩
  · rintro ⟨⟨r, hr, h1, h2⟩, hv⟩
    exact ⟨(mem_pair_keys T (θ, s)).2 ⟨r, hr, h1, h2⟩, hv⟩

/-- C5 witness: the success branch at a concrete table and theme. -/
theorem group_by_subtheme_raises_or_totals_witness :
    subthemeOkSpec sampleTable "Health" :=
  (group_by_subtheme_raises_or_totals sampleTable "Health").2 (by decide)

/-! ### C6: distinct_subthemes on an unknown theme -/

/-- C6 counterexample: `get_all_subthemes_of` (the source of the spec's
`distinct_subthemes`) does not fail when zero records match the theme —
it returns normally with an empty result.  `sampleTable` has no record
with theme `"Culture"`, yet the call returns `[]` rather than raising
`UnknownTheme`. -/
theorem distinct_subthemes_returns_empty_on_unknown :
    get_all_subthemes_of sampleTable "Culture" = ([] : List String)
    ∧ (∀ r ∈ sampleTable, r.ds_funcao_governo ≠ "Culture") := by decide

/-- Amended behaviour of `distinct_subthemes`: the duplicate-free list of
subthemes of the matching records, which is empty — not an error — when
zero records match. -/
def distinctSubthemesSpec (T : ExpenseTable) (θ : String) : Prop :=
  (get_all_subthemes_of T θ).Nodup
  ∧ (∀ s, s ∈ get_all_subthemes_of T θ ↔
      ∃ r ∈ T, r.ds_funcao_governo = θ ∧ r.ds_subfuncao_governo = s)
  ∧ ((∀ r ∈ T, r.ds_funcao_governo ≠ θ) → get_all_subthemes_of T θ = [])

/-- C6 amended: `distinct_subthemes(table, theme)` returns the set of
distinct subtheme values among the matching records, and the empty set —
without failing — when zero records match. -/
theorem distinct_subthemes_amended (T : ExpenseTable) (θ : String) :
    distinctSubthemesSpec T θ := by
  refine ⟨nodup_unique _, fun s => mem_get_all_subthemes_of T θ s, fun h => ?_⟩
  cases hh : get_all_subthemes_of T θ with
  | nil => rfl
  | cons a l =>
    exfalso
    have hmem : a ∈ get_all_subthemes_of T θ := by
      rw [hh]; exact List.mem_cons_self a l
    obtain ⟨r, hr, h1, _⟩ := (mem_get_all_subthemes_of T θ a).1 hmem
    exact h r hr h1

/-- C6 amended witness at a concrete table. -/
theorem distinct_subthemes_amended_witness :
    distinctSubthemesSpec sampleTable "Education" :=
  distinct_subthemes_amended sampleTable "Education"

/-! ### C7: order independence of group_by_theme_and_subtheme -/

/-- Key lookup in a grouped (theme, subtheme) table, the key-value view
under which the spec compares grouped results. -/
def lookupPair (g : List ((String × String) × Rat)) (k : String × String) : Option Rat :=
  (g.find? (fun p => p.1.1 == k.1 && p.1.2 == k.2)).map (fun p => p.2)

/-- Equality of grouped tables under key-value comparison. -/
def keyValueEq (g₁ g₂ : List ((String × String) × Rat)) : Prop :=
  ∀ k, lookupPair g₁ k = lookupPair g₂ k

theorem lookupPair_group (df : ExpenseTable) (k : String × String) :
    lookupPair (group_by_theme_and_subtheme df) k
      = if k ∈ unique (df.map fun r => (r.ds_funcao_governo, r.ds_subfuncao_governo))
        then some (pairTotal df k) else none := by
  unfold lookupPair group_by_theme_and_subtheme
  rw [find_map_keyval (fun t => t.1 == k.1 && t.2 == k.2) k
    (fun t => by simp [Prod.ext_iff]) (pairTotal df)]
  by_cases h : k ∈ unique (df.map fun r => (r.ds_funcao_governo, r.ds_subfuncao_governo)) <;>
    simp [h]

/-- C7: `group_by_theme_and_subtheme` is independent of record order —
permuting the table gives a grouped result equal under key-value
comparison. -/
theorem group_pair_order_independent (T U : ExpenseTable) (h : List.Perm T U) :
    keyValueEq (group_by_theme_and_subtheme T) (group_by_theme_and_subtheme U) := by
  intro k
  rw [lookupPair_group, lookupPair_group]
  have hmem : (k ∈ unique (T.map fun r => (r.ds_funcao_governo, r.ds_subfuncao_governo)))
      ↔ (k ∈ unique (U.map fun r => (r.ds_funcao_governo, r.ds_subfuncao_governo))) := by
    rw [mem_unique, mem_unique]
    exact (h.map _).mem_iff
  have htot : pairTotal T k = pairTotal U k := by
    unfold pairTotal
    exact ((h.filter _).map _).sum_eq
  by_cases hk : k ∈ unique (U.map fun r => (r.ds_funcao_governo, r.ds_subfuncao_governo))
  · rw [if_pos (hmem.2 hk), if_pos hk, htot]
  · rw [if_neg (fun hx => hk (hmem.1 hx)), if_neg hk]

/-- C7 witness: a concrete table and a shuffle of it. -/
theorem group_pair_order_independent_witness :
    keyValueEq (group_by_theme_and_subtheme sampleTable)
      (group_by_theme_and_subtheme sampleShuffled) :=
  group_pair_order_independent sampleTable sampleShuffled (by decide)

/-! ### Historical series builders -/

/-- Errors a historical build can surface: a pandas `KeyError` from a
`.loc` lookup (carrying only the missing key, as in Python), or the
`ValueError` pandas raises when assigning `full_df.index = years` while
the number of accumulated rows differs from `len(years)` (which happens
when every per-year frame stayed empty, e.g. with an empty selection
list). -/
inductive HistError where
  | keyError (key : String)
  | lengthMismatch
deriving DecidableEq

/-- One row of a result frame: its columns, as (name, cell) pairs. -/
abbrev Row := List (String × Rat)

/-- Overwrite one entry of a row when its column name matches. -/
def replaceCol (name : String) (v : Rat) (c : String × Rat) : String × Rat :=
  if c.1 == name then (name, v) else c

/-- Column assignment `year_df[name] = [v]`: pandas overwrites an
existing column with that name and otherwise appends a new one. -/
def setCol (cols : Row) (name : String) (v : Rat) : Row :=
  if cols.any (fun c => c.1 == name) then cols.map (replaceCol name v)
  else cols ++ [(name, v)]

/-- Cell lookup in a row by column name. -/
def lookupCol (cols : Row) (name : String) : Option Rat :=
  (cols.find? (fun c => c.1 == name)).map (fun c => c.2)

/-- Column name `"vl_despesa_{}_{}".format(theme, subtheme)`. -/
def mkSubCol (θ s : String) : String := "vl_despesa_" ++ θ ++ "_" ++ s

/-- The inner loop of `get_themed_historical` for one year:
`theme_df = group_by_theme(paid_df).loc[theme]` (raising
`KeyError(theme)` when absent) followed by
`year_df["vl_despesa_" + theme] = [theme_df["vl_despesa"]]`. -/
def themedRow (paid : ExpenseTable) : List String → Row → Except HistError Row
  | [], cols => Except.ok cols
  | θ :: rest, cols =>
    match (group_by_theme paid).find? (fun g => g.1 == θ) with
    | none => Except.error (HistError.keyError θ)
    | some g => themedRow paid rest (setCol cols ("vl_despesa_" ++ θ) g.2.1)

/-- The inner loop of `get_subthemed_historical` for one year:
`theme_df = group_by_subtheme(paid_df, theme).loc[subtheme]` followed by
the column assignment under `"vl_despesa_{}_{}".format(theme, subtheme)`. -/
def subthemedRow (paid : ExpenseTable) :
    List (String × String) → Row → Except HistError Row
  | [], cols => Except.ok cols
  | (θ, s) :: rest, cols =>
    match group_by_subtheme paid θ with
    | Except.error k => Except.error (HistError.keyError k)
    | Except.ok vals =>
      match vals.find? (fun q => q.1 == s) with
      | none => Except.error (HistError.keyError s)
      | some q => subthemedRow paid rest (setCol cols (mkSubCol θ s) q.2)

/-- The inner subtheme loop of `get_all_subthemes_historical`:
`subtheme_df = subthemes_df.loc[subtheme]` for each discovered subtheme,
then the column assignment. -/
def allSubCols (vals : List (String × Rat)) (θ : String) :
    List String → Row → Except HistError Row
  | [], cols => Except.ok cols
  | s :: rest, cols =>
    match vals.find? (fun q => q.1 == s) with
    | none => Except.error (HistError.keyError s)
    | some q => allSubCols vals θ rest (setCol cols (mkSubCol θ s) q.2)

/-- The theme loop of `get_all_subthemes_historical` for one year:
`subthemes = get_all_subthemes_of(paid_df, theme)` (never raises) then
`subthemes_df = group_by_subtheme(paid_df, theme)` (raises
`KeyError(theme)` when the theme has no paid records) then the inner
subtheme loop. -/
def allSubRow (paid : ExpenseTable) : List String → Row → Except HistError Row
  | [], cols => Except.ok cols
  | θ :: rest, cols =>
    match group_by_subtheme paid θ with
    | Except.error k => Except.error (HistError.keyError k)
    | Except.ok vals =>
      match allSubCols vals θ (get_all_subthemes_of paid θ) cols with
      | Except.error e => Except.error e
      | Except.ok cols2 => allSubRow paid rest cols2

/-- The year loop shared by the three builders: build one `year_df` per
year, stopping at the first raised error, exactly like the Python `for`
loop. -/
def buildRows (rowFn : Nat → Except HistError Row) :
    List Nat → Except HistError (List Row)
  | [] => Except.ok []
  | y :: ys =>
    match rowFn y with
    | Except.error e => Except.error e
    | Except.ok row =>
      match buildRows rowFn ys with
      | Except.error e => Except.error e
      | Except.ok rows => Except.ok (row :: rows)

/-- The common tail of the three builders:
`full_df = pd.DataFrame.append(full_df, year_df)` per year (a `year_df`
that received no column assignment has zero rows and contributes
nothing), then `full_df.index = [y for y in years]`, which raises when
the accumulated row count differs from `len(years)`. -/
def assemble (rowFn : Nat → Except HistError Row) (years : List Nat) :
    Except HistError (List (Nat × Row)) :=
  match buildRows rowFn years with
  | Except.error e => Except.error e
  | Except.ok rows =>
    if (rows.filter (fun r => !r.isEmpty)).length = years.length
    then Except.ok (years.zip (rows.filter (fun r => !r.isEmpty)))
    else Except.error HistError.lengthMismatch

/-- Source `get_themed_historical`, with the record source abstracted as
`fetch` (it stands for `get_expenses`, which is pure I/O). -/
def get_themed_historical (fetch : String → Nat → ExpenseTable) (city : String)
    (years : List Nat) (themes : List String) : Except HistError (List (Nat × Row)) :=
  assemble (fun y => themedRow (only_paid (fetch city y)) themes []) years

/-- Source `get_subthemed_historical`. -/
def get_subthemed_historical (fetch : String → Nat → ExpenseTable) (city : String)
    (years : List Nat) (subthemes : List (String × String)) :
    Except HistError (List (Nat × Row)) :=
  assemble (fun y => subthemedRow (only_paid (fetch city y)) subthemes []) years

/-- Source `get_all_subthemes_historical`. -/
def get_all_subthemes_historical (fetch : String → Nat → ExpenseTable) (city : String)
    (years : List Nat) (themes : List String) : Except HistError (List (Nat × Row)) :=
  assemble (fun y => allSubRow (only_paid (fetch city y)) themes []) years

/-! ### Row and column lemmas -/

theorem string_append_left_cancel {s a b : String} (h : s ++ a = s ++ b) : a = b := by
  have hd := congrArg String.data h
  simp only [String.data_append] at hd
  exact String.ext (List.append_cancel_left hd)

theorem lookupCol_cons (c : String × Rat) (cs : Row) (m : String) :
    lookupCol (c :: cs) m = if c.1 == m then some c.2 else lookupCol cs m := by
  unfold lookupCol
  cases h : (c.1 == m) <;> simp [List.find?_cons, h]

theorem lookupCol_replace_self (n : String) (v : Rat) :
    ∀ cols : Row, cols.any (fun c => c.1 == n) = true →
      lookupCol (cols.map (replaceCol n v)) n = some v := by
  intro cols
  induction cols with
  | nil => intro h; simp at h
  | cons c cs ih =>
    intro h
    by_cases hce : c.1 = n
    · have hhead : replaceCol n v c = (n, v) := by simp [replaceCol, hce]
      simp [List.map_cons, hhead, lookupCol_cons]
    · have hhead : replaceCol n v c = c := by simp [replaceCol, hce]
      have hcs : cs.any (fun c => c.1 == n) = true := by
        simpa [List.any_cons, hce] using h
      rw [List.map_cons, hhead, lookupCol_cons, if_neg (by simpa using hce)]
      exact ih hcs

theorem lookupCol_replace_other (n : String) (v : Rat) (m : String) (hm : m ≠ n) :
    ∀ cols : Row,
      lookupCol (cols.map (replaceCol n v)) m = lookupCol cols m := by
  intro cols
  have hnm : n ≠ m := fun h => hm h.symm
  induction cols with
  | nil => rfl
  | cons c cs ih =>
    by_cases hce : c.1 = n
    · have hhead : replaceCol n v c = (n, v) := by simp [replaceCol, hce]
      have hcm : c.1 ≠ m := by rw [hce]; exact hnm
      rw [List.map_cons, hhead, lookupCol_cons, lookupCol_cons,
        if_neg (by simpa using hnm), if_neg (by simpa using hcm)]
      exact ih
    · have hhead : replaceCol n v c = c := by simp [replaceCol, hce]
      rw [List.map_cons, hhead, lookupCol_cons, lookupCol_cons, ih]

theorem lookupCol_extend_self (n : String) (v : Rat) :
    ∀ cols : Row, cols.any (fun c => c.1 == n) = false →
      lookupCol (cols ++ [(n, v)]) n = some v := by
  intro cols
  induction cols with
  | nil => intro _; simp [lookupCol_cons]
  | cons c cs ih =>
    intro h
    rw [List.any_cons] at h
    have hc : (c.1 == n) = false := (Bool.or_eq_false_iff.1 h).1
    have hcs : cs.any (fun x => x.1 == n) = false := (Bool.or_eq_false_iff.1 h).2
    rw [List.cons_append, lookupCol_cons, if_neg (by simp [hc])]
    exact ih hcs

theorem lookupCol_extend_other (n : String) (v : Rat) (m : String) (hm : m ≠ n) :
    ∀ cols : Row, lookupCol (cols ++ [(n, v)]) m = lookupCol cols m := by
  intro cols
  have hnm : n ≠ m := fun h => hm h.symm
  induction cols with
  | nil =>
    rw [List.nil_append, lookupCol_cons, if_neg (by simpa using hnm)]
  | cons c cs ih =>
    rw [List.cons_append, lookupCol_cons, lookupCol_cons, ih]

/-- Cell lookup after a column assignment. -/
theorem lookupCol_setCol (cols : Row) (n : String) (v : Rat) (m : String) :
    lookupCol (setCol cols n v) m = if m = n then some v else lookupCol cols m := by
  unfold setCol
  by_cases hany : cols.any (fun c => c.1 == n) = true
  · rw [if_pos hany]
    by_cases hm : m = n
    · subst hm
      rw [if_pos rfl]
      exact lookupCol_replace_self m v cols hany
    · rw [if_neg hm]
      exact lookupCol_replace_other n v m hm cols
  · rw [if_neg hany]
    have hfalse : cols.any (fun c => c.1 == n) = false := by
      cases hb : cols.any (fun c => c.1 == n) with
      | true => exact absurd hb hany
      | false => rfl
    by_cases hm : m = n
    · subst hm
      rw [if_pos rfl]
      exact lookupCol_extend_self m v cols hfalse
    · rw [if_neg hm]
      exact lookupCol_extend_other n v m hm cols

theorem keys_replace (n : String) (v : Rat) :
    ∀ cols : Row,
      (cols.map (replaceCol n v)).map Prod.fst = cols.map Prod.fst := by
  intro cols
  induction cols with
  | nil => rfl
  | cons c cs ih =>
    by_cases hce : c.1 = n
    · have hhead : replaceCol n v c = (n, v) := by simp [replaceCol, hce]
      rw [List.map_cons, hhead, List.map_cons, List.map_cons, ih]
      simp [hce]
    · have hhead : replaceCol n v c = c := by simp [replaceCol, hce]
      rw [List.map_cons, hhead, List.map_cons, List.map_cons, ih]

/-- Column-name membership after a column assignment. -/
theorem mem_keys_setCol (cols : Row) (n : String) (v : Rat) (m : String) :
    m ∈ (setCol cols n v).map Prod.fst ↔ m ∈ cols.map Prod.fst ∨ m = n := by
  unfold setCol
  by_cases hany : cols.any (fun c => c.1 == n) = true
  · rw [if_pos hany, keys_replace]
    constructor
    · exact Or.inl
    · rintro (hmem | hm)
      · exact hmem
      · rcases List.any_eq_true.1 hany with ⟨c, hc, hcn⟩
        have hce : c.1 = n := by simpa using hcn
        subst hm
        exact List.mem_map.2 ⟨c, hc, hce⟩
  · rw [if_neg hany]
    simp [List.map_append]

theorem setCol_ne_nil (cols : Row) (n : String) (v : Rat) : setCol cols n v ≠ [] := by
  intro h
  have hmem := (mem_keys_setCol cols n v n).2 (Or.inr rfl)
  rw [h] at hmem
  simp at hmem

/-! ### Per-year row lemmas: themedRow -/

theorem mem_theme_keys (df : ExpenseTable) (θ : String) :
    θ ∈ unique (df.map fun r => r.ds_funcao_governo)
      ↔ ∃ r ∈ df, r.ds_funcao_governo = θ := by
  rw [mem_unique, List.mem_map]

theorem find_group_some (paid : ExpenseTable) (θ : String)
    (g : String × Rat × List String)
    (hf : (group_by_theme paid).find? (fun x => x.1 == θ) = some g) :
    g.2.1 = themeTotal paid θ ∧ g.1 = θ
      ∧ ∃ r ∈ paid, r.ds_funcao_governo = θ := by
  rw [find_group_by_theme] at hf
  by_cases hmem : θ ∈ unique (paid.map fun r => r.ds_funcao_governo)
  · rw [if_pos hmem] at hf
    injection hf with hf
    subst hf
    exact ⟨rfl, rfl, (mem_theme_keys paid θ).1 hmem⟩
  · rw [if_neg hmem] at hf
    cases hf

theorem themedRow_ok_untouched (paid : ExpenseTable) :
    ∀ (ts : List String) (cols row : Row), themedRow paid ts cols = Except.ok row →
      ∀ m, (∀ θ ∈ ts, m ≠ "vl_despesa_" ++ θ) →
        lookupCol row m = lookupCol cols m := by
  intro ts
  induction ts with
  | nil =>
    intro cols row h m _
    simp only [themedRow] at h
    injection h with h
    rw [h]
  | cons θ rest ih =>
    intro cols row h m hm
    cases hf : (group_by_theme paid).find? (fun g => g.1 == θ) with
    | none =>
      simp only [themedRow, hf] at h
      exact Except.noConfusion h
    | some g =>
      simp only [themedRow, hf] at h
      rw [ih _ _ h m (fun θ2 h2 => hm θ2 (List.mem_cons_of_mem _ h2)),
        lookupCol_setCol, if_neg (hm θ (List.mem_cons_self _ _))]

theorem themedRow_ok_lookup (paid : ExpenseTable) :
    ∀ (ts : List String) (cols row : Row), themedRow paid ts cols = Except.ok row →
      ∀ θ ∈ ts, lookupCol row ("vl_despesa_" ++ θ) = some (themeTotal paid θ) := by
  intro ts
  induction ts with
  | nil =>
    intro cols row _ θ hθ
    simp at hθ
  | cons θ rest ih =>
    intro cols row h θ2 hθ2
    cases hf : (group_by_theme paid).find? (fun g => g.1 == θ) with
    | none =>
      simp only [themedRow, hf] at h
      exact Except.noConfusion h
    | some g =>
      simp only [themedRow, hf] at h
      rcases List.mem_cons.1 hθ2 with rfl | hmem
      · by_cases hrest : θ2 ∈ rest
        · exact ih _ _ h θ2 hrest
        · have hnames : ∀ θ3 ∈ rest, ("vl_despesa_" ++ θ2) ≠ ("vl_despesa_" ++ θ3) := by
            intro θ3 h3 heq
            exact hrest (string_append_left_cancel heq ▸ h3)
          rw [themedRow_ok_untouched paid rest _ _ h _ hnames,
            lookupCol_setCol, if_pos rfl, (find_group_some paid θ2 g hf).1]
      · exact ih _ _ h θ2 hmem

theorem themedRow_ok_keys (paid : ExpenseTable) :
    ∀ (ts : List String) (cols row : Row), themedRow paid ts cols = Except.ok row →
      ∀ m, m ∈ row.map Prod.fst
        ↔ m ∈ cols.map Prod.fst ∨ ∃ θ ∈ ts, m = "vl_despesa_" ++ θ := by
  intro ts
  induction ts with
  | nil =>
    intro cols row h m
    simp only [themedRow] at h
    injection h with h
    subst h
    simp
  | cons θ rest ih =>
    intro cols row h m
    cases hf : (group_by_theme paid).find? (fun g => g.1 == θ) with
    | none =>
      simp only [themedRow, hf] at h
      exact Except.noConfusion h
    | some g =>
      simp only [themedRow, hf] at h
      rw [ih _ _ h m, mem_keys_setCol]
      constructor
      · rintro ((hc | hn) | ⟨θ2, h2, he⟩)
        · exact Or.inl hc
        · exact Or.inr ⟨θ, List.mem_cons_self _ _, hn⟩
        · exact Or.inr ⟨θ2, List.mem_cons_of_mem _ h2, he⟩
      · rintro (hc | ⟨θ2, h2, he⟩)
        · exact Or.inl (Or.inl hc)
        · rcases List.mem_cons.1 h2 with rfl | h2m
          · exact Or.inl (Or.inr he)
          · exact Or.inr ⟨θ2, h2m, he⟩

theorem themedRow_ok_present (paid : ExpenseTable) :
    ∀ (ts : List String) (cols row : Row), themedRow paid ts cols = Except.ok row →
      ∀ θ ∈ ts, ∃ r ∈ paid, r.ds_funcao_governo = θ := by
  intro ts
  induction ts with
  | nil =>
    intro cols row _ θ hθ
    simp at hθ
  | cons θ rest ih =>
    intro cols row h θ2 hθ2
    cases hf : (group_by_theme paid).find? (fun g => g.1 == θ) with
    | none =>
      simp only [themedRow, hf] at h
      exact Except.noConfusion h
    | some g =>
      simp only [themedRow, hf] at h
      rcases List.mem_cons.1 hθ2 with rfl | hmem
      · exact (find_group_some paid θ2 g hf).2.2
      · exact ih _ _ h θ2 hmem

theorem themedRow_error_key (paid : ExpenseTable) :
    ∀ (ts : List String) (cols : Row) (e : HistError),
      themedRow paid ts cols = Except.error e → ∃ k, e = HistError.keyError k := by
  intro ts
  induction ts with
  | nil =>
    intro cols e h
    simp only [themedRow] at h
    exact Except.noConfusion h
  | cons θ rest ih =>
    intro cols e h
    cases hf : (group_by_theme paid).find? (fun g => g.1 == θ) with
    | none =>
      simp only [themedRow, hf] at h
      injection h with h
      exact ⟨θ, h.symm⟩
    | some g =>
      simp only [themedRow, hf] at h
      exact ih _ _ h

theorem themedRow_ok_exists (paid : ExpenseTable) :
    ∀ ts : List String, (∀ θ ∈ ts, ∃ r ∈ paid, r.ds_funcao_governo = θ) →
      ∀ cols : Row, ∃ row, themedRow paid ts cols = Except.ok row := by
  intro ts
  induction ts with
  | nil => exact fun _ cols => ⟨cols, rfl⟩
  | cons θ rest ih =>
    intro hp cols
    have hmem : θ ∈ unique (paid.map fun r => r.ds_funcao_governo) :=
      (mem_theme_keys paid θ).2 (hp θ (List.mem_cons_self _ _))
    have hf : (group_by_theme paid).find? (fun g => g.1 == θ)
        = some (θ, themeTotal paid θ,
          unique ((paid.filter (fun r => r.ds_funcao_governo == θ)).map
            (fun r => r.ds_subfuncao_governo))) := by
      rw [find_group_by_theme, if_pos hmem]
    obtain ⟨row, hrow⟩ := ih (fun θ2 h2 => hp θ2 (List.mem_cons_of_mem _ h2)) (setCol cols
      ("vl_despesa_" ++ θ) (themeTotal paid θ))
    refine ⟨row, ?_⟩
    simp only [themedRow, hf]
    exact hrow

/-! ### Year-loop lemmas -/

theorem buildRows_ok_zip (f : Nat → Except HistError Row) :
    ∀ (ys : List Nat) (rows : List Row), buildRows f ys = Except.ok rows →
      rows.length = ys.length
      ∧ (∀ p ∈ ys.zip rows, f p.1 = Except.ok p.2)
      ∧ (∀ r ∈ rows, ∃ y ∈ ys, f y = Except.ok r) := by
  intro ys
  induction ys with
  | nil =>
    intro rows h
    simp only [buildRows] at h
    injection h with h
    subst h
    exact ⟨rfl, by simp, by simp⟩
  | cons y ys ih =>
    intro rows h
    cases hy : f y with
    | error e =>
      simp only [buildRows, hy] at h
      exact Except.noConfusion h
    | ok row =>
      cases hb : buildRows f ys with
      | error e =>
        simp only [buildRows, hy, hb] at h
        exact Except.noConfusion h
      | ok rows2 =>
        simp only [buildRows, hy, hb] at h
        injection h with h
        subst h
        obtain ⟨hlen, hzip, hmem⟩ := ih rows2 hb
        refine ⟨by simp [hlen], ?_, ?_⟩
        · intro p hp
          rcases List.mem_cons.1 hp with rfl | hp2
          · exact hy
          · exact hzip p hp2
        · intro r hr
          rcases List.mem_cons.1 hr with rfl | hr2
          · exact ⟨y, List.mem_cons_self _ _, hy⟩
          · obtain ⟨y2, hy2, hfy2⟩ := hmem r hr2
            exact ⟨y2, List.mem_cons_of_mem _ hy2, hfy2⟩

theorem buildRows_ok_each (f : Nat → Except HistError Row) :
    ∀ (ys : List Nat) (rows : List Row), buildRows f ys = Except.ok rows →
      ∀ y ∈ ys, ∃ row, f y = Except.ok row := by
  intro ys
  induction ys with
  | nil =>
    intro rows _ y hy
    simp at hy
  | cons y0 ys ih =>
    intro rows h y hy
    cases hy0 : f y0 with
    | error e =>
      simp only [buildRows, hy0] at h
      exact Except.noConfusion h
    | ok row =>
      cases hb : buildRows f ys with
      | error e =>
        simp only [buildRows, hy0, hb] at h
        exact Except.noConfusion h
      | ok rows2 =>
        rcases List.mem_cons.1 hy with rfl | hy2
        · exact ⟨row, hy0⟩
        · exact ih rows2 hb y hy2

theorem buildRows_error (f : Nat → Except HistError Row) :
    ∀ (ys : List Nat) (e : HistError), buildRows f ys = Except.error e →
      ∃ y ∈ ys, f y = Except.error e := by
  intro ys
  induction ys with
  | nil =>
    intro e h
    simp only [buildRows] at h
    exact Except.noConfusion h
  | cons y ys ih =>
    intro e h
    cases hy : f y with
    | error e2 =>
      simp only [buildRows, hy] at h
      injection h with h
      exact ⟨y, List.mem_cons_self _ _, h ▸ hy⟩
    | ok row =>
      cases hb : buildRows f ys with
      | error e2 =>
        simp only [buildRows, hy, hb] at h
        injection h with h
        obtain ⟨y2, hy2, hfy2⟩ := ih e2 hb
        exact ⟨y2, List.mem_cons_of_mem _ hy2, h ▸ hfy2⟩
      | ok rows2 =>
        simp only [buildRows, hy, hb] at h
        exact Except.noConfusion h

theorem buildRows_ok_exists (f : Nat → Except HistError Row) :
    ∀ ys : List Nat, (∀ y ∈ ys, ∃ row, f y = Except.ok row) →
      ∃ rows, buildRows f ys = Except.ok rows := by
  intro ys
  induction ys with
  | nil => exact fun _ => ⟨[], rfl⟩
  | cons y ys ih =>
    intro h
    obtain ⟨row, hy⟩ := h y (List.mem_cons_self _ _)
    obtain ⟨rows2, hb⟩ := ih (fun y2 h2 => h y2 (List.mem_cons_of_mem _ h2))
    exact ⟨row :: rows2, by simp only [buildRows, hy, hb]⟩

theorem assemble_ok (f : Nat → Except HistError Row) (ys : List Nat)
    (rows : List (Nat × Row)) (h : assemble f ys = Except.ok rows) :
    rows.map Prod.fst = ys ∧ ∀ p ∈ rows, f p.1 = Except.ok p.2 := by
  cases hb : buildRows f ys with
  | error e =>
    simp only [assemble, hb] at h
    exact Except.noConfusion h
  | ok rows0 =>
    simp only [assemble, hb] at h
    by_cases hlen : (rows0.filter (fun r => !r.isEmpty)).length = ys.length
    · rw [if_pos hlen] at h
      injection h with h
      subst h
      obtain ⟨hlen0, hzip, _⟩ := buildRows_ok_zip f ys rows0 hb
      have hfil : rows0.filter (fun r => !r.isEmpty) = rows0 := by
        rw [List.filter_eq_self]
        simpa using (hlen.trans hlen0.symm)
      rw [hfil]
      exact ⟨List.map_fst_zip _ _ (le_of_eq hlen0.symm), hzip⟩
    · rw [if_neg hlen] at h
      exact Except.noConfusion h

theorem assemble_propagates (f : Nat → Except HistError Row) (ys : List Nat)
    (e : HistError) (hb : buildRows f ys = Except.error e) :
    assemble f ys = Except.error e := by
  simp only [assemble, hb]

theorem assemble_ok_of (f : Nat → Except HistError Row) (ys : List Nat)
    (hex : ∀ y ∈ ys, ∃ row, f y = Except.ok row ∧ row ≠ []) :
    ∃ rows, assemble f ys = Except.ok rows := by
  obtain ⟨rows0, hb⟩ := buildRows_ok_exists f ys
    (fun y hy => ⟨(hex y hy).choose, (hex y hy).choose_spec.1⟩)
  obtain ⟨hlen0, _, hmem⟩ := buildRows_ok_zip f ys rows0 hb
  have hall : ∀ r ∈ rows0, r ≠ [] := by
    intro r hr
    obtain ⟨y, hy, hfy⟩ := hmem r hr
    obtain ⟨row2, hok2, hne2⟩ := hex y hy
    rw [hfy] at hok2
    injection hok2 with hok2
    exact hok2 ▸ hne2
  have hfil : rows0.filter (fun r => !r.isEmpty) = rows0 := by
    rw [List.filter_eq_self]
    intro a ha
    simpa [List.isEmpty_iff] using hall a ha
  refine ⟨ys.zip rows0, ?_⟩
  simp only [assemble, hb, hfil]
  rw [if_pos hlen0]

/-! ### Per-year row lemmas: subthemedRow and allSubRow -/

theorem group_by_subtheme_ok_inv (df : ExpenseTable) (θ : String)
    (vals : List (String × Rat)) (h : group_by_subtheme df θ = Except.ok vals) :
    vals = ((group_by_theme_and_subtheme df).filter (fun p => p.1.1 == θ)).map
      (fun p => (p.1.2, p.2)) := by
  unfold group_by_subtheme at h
  by_cases he : ((group_by_theme_and_subtheme df).filter (fun p => p.1.1 == θ)).isEmpty
  · simp only [he, if_true] at h
    exact Except.noConfusion h
  · simp only [he, Bool.false_eq_true, if_false] at h
    injection h with h
    exact h.symm

theorem group_by_subtheme_ok_present (df : ExpenseTable) (θ : String)
    (vals : List (String × Rat)) (h : group_by_subtheme df θ = Except.ok vals) :
    ∃ r ∈ df, r.ds_funcao_governo = θ := by
  by_contra hno
  push_neg at hno
  have herr := (group_by_subtheme_error_iff df θ).2 hno
  rw [h] at herr
  exact Except.noConfusion herr

theorem subtheme_vals_find_present (df : ExpenseTable) (θ s : String)
    (vals : List (String × Rat)) (q : String × Rat)
    (hok : group_by_subtheme df θ = Except.ok vals)
    (hf : vals.find? (fun x => x.1 == s) = some q) :
    ∃ r ∈ df, r.ds_funcao_governo = θ ∧ r.ds_subfuncao_governo = s := by
  have hq := List.find?_some hf
  have hqm := List.mem_of_find?_eq_some hf
  obtain ⟨q1, q2⟩ := q
  have hqs : q1 = s := by simpa using hq
  subst hqs
  rw [group_by_subtheme_ok_inv df θ vals hok] at hqm
  exact (mem_pair_keys df (θ, q1)).1 ((mem_subtheme_vals df θ q1 q2).1 hqm).1

theorem subthemedRow_ok_present (paid : ExpenseTable) :
    ∀ (ps : List (String × String)) (cols row : Row),
      subthemedRow paid ps cols = Except.ok row →
      ∀ p ∈ ps, ∃ r ∈ paid,
        r.ds_funcao_governo = p.1 ∧ r.ds_subfuncao_governo = p.2 := by
  intro ps
  induction ps with
  | nil =>
    intro cols row _ p hp
    simp at hp
  | cons p0 rest ih =>
    intro cols row h p hp
    obtain ⟨θ, s⟩ := p0
    cases hg : group_by_subtheme paid θ with
    | error k =>
      simp only [subthemedRow, hg] at h
      exact Except.noConfusion h
    | ok vals =>
      cases hfv : vals.find? (fun q => q.1 == s) with
      | none =>
        simp only [subthemedRow, hg, hfv] at h
        exact Except.noConfusion h
      | some q =>
        simp only [subthemedRow, hg, hfv] at h
        rcases List.mem_cons.1 hp with rfl | hmem
        · exact subtheme_vals_find_present paid θ s vals q hg hfv
        · exact ih _ _ h p hmem

theorem subthemedRow_error_key (paid : ExpenseTable) :
    ∀ (ps : List (String × String)) (cols : Row) (e : HistError),
      subthemedRow paid ps cols = Except.error e → ∃ k, e = HistError.keyError k := by
  intro ps
  induction ps with
  | nil =>
    intro cols e h
    simp only [subthemedRow] at h
    exact Except.noConfusion h
  | cons p0 rest ih =>
    intro cols e h
    obtain ⟨θ, s⟩ := p0
    cases hg : group_by_subtheme paid θ with
    | error k =>
      simp only [subthemedRow, hg] at h
      injection h with h
      exact ⟨k, h.symm⟩
    | ok vals =>
      cases hfv : vals.find? (fun q => q.1 == s) with
      | none =>
        simp only [subthemedRow, hg, hfv] at h
        injection h with h
        exact ⟨s, h.symm⟩
      | some q =>
        simp only [subthemedRow, hg, hfv] at h
        exact ih _ _ h

theorem allSubCols_error_key (vals : List (String × Rat)) (θ : String) :
    ∀ (subs : List String) (cols : Row) (e : HistError),
      allSubCols vals θ subs cols = Except.error e → ∃ k, e = HistError.keyError k := by
  intro subs
  induction subs with
  | nil =>
    intro cols e h
    simp only [allSubCols] at h
    exact Except.noConfusion h
  | cons s rest ih =>
    intro cols e h
    cases hfv : vals.find? (fun q => q.1 == s) with
    | none =>
      simp only [allSubCols, hfv] at h
      injection h with h
      exact ⟨s, h.symm⟩
    | some q =>
      simp only [allSubCols, hfv] at h
      exact ih _ _ h

theorem allSubCols_ok_keys (vals : List (String × Rat)) (θ : String) :
    ∀ (subs : List String) (cols row : Row),
      allSubCols vals θ subs cols = Except.ok row →
      ∀ m, m ∈ row.map Prod.fst
        ↔ m ∈ cols.map Prod.fst ∨ ∃ s ∈ subs, m = mkSubCol θ s := by
  intro subs
  induction subs with
  | nil =>
    intro cols row h m
    simp only [allSubCols] at h
    injection h with h
    subst h
    simp
  | cons s rest ih =>
    intro cols row h m
    cases hfv : vals.find? (fun q => q.1 == s) with
    | none =>
      simp only [allSubCols, hfv] at h
      exact Except.noConfusion h
    | some q =>
      simp only [allSubCols, hfv] at h
      rw [ih _ _ h m, mem_keys_setCol]
      constructor
      · rintro ((hc | hn) | ⟨s2, h2, he⟩)
        · exact Or.inl hc
        · exact Or.inr ⟨s, List.mem_cons_self _ _, hn⟩
        · exact Or.inr ⟨s2, List.mem_cons_of_mem _ h2, he⟩
      · rintro (hc | ⟨s2, h2, he⟩)
        · exact Or.inl (Or.inl hc)
        · rcases List.mem_cons.1 h2 with rfl | h2m
          · exact Or.inl (Or.inr he)
          · exact Or.inr ⟨s2, h2m, he⟩

theorem allSubRow_error_key (paid : ExpenseTable) :
    ∀ (ts : List String) (cols : Row) (e : HistError),
      allSubRow paid ts cols = Except.error e → ∃ k, e = HistError.keyError k := by
  intro ts
  induction ts with
  | nil =>
    intro cols e h
    simp only [allSubRow] at h
    exact Except.noConfusion h
  | cons θ rest ih =>
    intro cols e h
    cases hg : group_by_subtheme paid θ with
    | error k =>
      simp only [allSubRow, hg] at h
      injection h with h
      exact ⟨k, h.symm⟩
    | ok vals =>
      cases hc : allSubCols vals θ (get_all_subthemes_of paid θ) cols with
      | error e2 =>
        simp only [allSubRow, hg, hc] at h
        injection h with h
        exact h ▸ allSubCols_error_key vals θ _ _ _ hc
      | ok cols2 =>
        simp only [allSubRow, hg, hc] at h
        exact ih _ _ h

theorem allSubRow_ok_present (paid : ExpenseTable) :
    ∀ (ts : List String) (cols row : Row), allSubRow paid ts cols = Except.ok row →
      ∀ θ ∈ ts, ∃ r ∈ paid, r.ds_funcao_governo = θ := by
  intro ts
  induction ts with
  | nil =>
    intro cols row _ θ hθ
    simp at hθ
  | cons θ0 rest ih =>
    intro cols row h θ hθ
    cases hg : group_by_subtheme paid θ0 with
    | error k =>
      simp only [allSubRow, hg] at h
      exact Except.noConfusion h
    | ok vals =>
      cases hc : allSubCols vals θ0 (get_all_subthemes_of paid θ0) cols with
      | error e2 =>
        simp only [allSubRow, hg, hc] at h
        exact Except.noConfusion h
      | ok cols2 =>
        simp only [allSubRow, hg, hc] at h
        rcases List.mem_cons.1 hθ with rfl | hmem
        · exact group_by_subtheme_ok_present paid θ vals hg
        · exact ih _ _ h θ hmem

theorem allSubRow_ok_keys (paid : ExpenseTable) :
    ∀ (ts : List String) (cols row : Row), allSubRow paid ts cols = Except.ok row →
      ∀ m, m ∈ row.map Prod.fst
        ↔ m ∈ cols.map Prod.fst
          ∨ ∃ θ ∈ ts, ∃ s ∈ get_all_subthemes_of paid θ, m = mkSubCol θ s := by
  intro ts
  induction ts with
  | nil =>
    intro cols row h m
    simp only [allSubRow] at h
    injection h with h
    subst h
    simp
  | cons θ rest ih =>
    intro cols row h m
    cases hg : group_by_subtheme paid θ with
    | error k =>
      simp only [allSubRow, hg] at h
      exact Except.noConfusion h
    | ok vals =>
      cases hc : allSubCols vals θ (get_all_subthemes_of paid θ) cols with
      | error e2 =>
        simp only [allSubRow, hg, hc] at h
        exact Except.noConfusion h
      | ok cols2 =>
        simp only [allSubRow, hg, hc] at h
        rw [ih _ _ h m, allSubCols_ok_keys vals θ _ _ _ hc m]
        constructor
        · rintro ((hc0 | ⟨s2, h2, he⟩) | ⟨θ2, h2, s2, h3, he⟩)
          · exact Or.inl hc0
          · exact Or.inr ⟨θ, List.mem_cons_self _ _, s2, h2, he⟩
          · exact Or.inr ⟨θ2, List.mem_cons_of_mem _ h2, s2, h3, he⟩
        · rintro (hc0 | ⟨θ2, h2, s2, h3, he⟩)
          · exact Or.inl (Or.inl hc0)
          · rcases List.mem_cons.1 h2 with rfl | h2m
            · exact Or.inl (Or.inr ⟨s2, h3, he⟩)
            · exact Or.inr ⟨θ2, h2m, s2, h3, he⟩

/-! ### C3: failure on absent selections -/

/-- The themed series construction fails with a `KeyError`. -/
def themedFails (fetch : String → Nat → ExpenseTable) (city : String)
    (years : List Nat) (themes : List String) : Prop :=
  ∃ k, get_themed_historical fetch city years themes
    = Except.error (HistError.keyError k)

/-- The subthemed series construction fails with a `KeyError`. -/
def subthemedFails (fetch : String → Nat → ExpenseTable) (city : String)
    (years : List Nat) (subthemes : List (String × String)) : Prop :=
  ∃ k, get_subthemed_historical fetch city years subthemes
    = Except.error (HistError.keyError k)

/-- The all-subthemes series construction fails with a `KeyError`. -/
def allSubFails (fetch : String → Nat → ExpenseTable) (city : String)
    (years : List Nat) (themes : List String) : Prop :=
  ∃ k, get_all_subthemes_historical fetch city years themes
    = Except.error (HistError.keyError k)

/-- C3 counterexample: two series constructions differing only in the
city and the year fail with the identical error value
`KeyError("Health")`.  The raised error names the missing selection but
nothing else, so it cannot identify the city or the year; the claim that
the surfaced error carries city and year context is false (no partial
series is returned — the result is the bare error). -/
theorem historical_error_carries_no_city_or_year :
    get_themed_historical (fun _ _ => []) "cityA" [2019] ["Health"]
      = Except.error (HistError.keyError "Health")
    ∧ get_themed_historical (fun _ _ => []) "cityB" [2020] ["Health"]
      = Except.error (HistError.keyError "Health") := ⟨rfl, rfl⟩

/-- C3 amended: for each of the three historical constructions, a
selection absent from some requested year's paid data makes the whole
call fail with a `KeyError` naming a missing selection, and no partial
series is returned; the error does not carry the city or the year. -/
theorem historical_fails_on_absent_selection
    (fetch : String → Nat → ExpenseTable) (city : String) (years : List Nat)
    (themes : List String) (subthemes : List (String × String)) :
    ((∃ y ∈ years, ∃ θ ∈ themes,
        ∀ r ∈ only_paid (fetch city y), r.ds_funcao_governo ≠ θ) →
      themedFails fetch city years themes)
    ∧ ((∃ y ∈ years, ∃ p ∈ subthemes, ∀ r ∈ only_paid (fetch city y),
        ¬(r.ds_funcao_governo = p.1 ∧ r.ds_subfuncao_governo = p.2)) →
      subthemedFails fetch city years subthemes)
    ∧ ((∃ y ∈ years, ∃ θ ∈ themes,
        ∀ r ∈ only_paid (fetch city y), r.ds_funcao_governo ≠ θ) →
      allSubFails fetch city years themes) := by
  refine ⟨?_, ?_, ?_⟩
  · rintro ⟨y, hy, θ, hθ, habs⟩
    cases hb : buildRows (fun y2 => themedRow (only_paid (fetch city y2)) themes []) years with
    | error e =>
      obtain ⟨k, rfl⟩ := themedRow_error_key _ _ _ _
        (buildRows_error _ _ _ hb).choose_spec.2
      exact ⟨k, assemble_propagates _ _ _ hb⟩
    | ok rows0 =>
      obtain ⟨row, hrow⟩ := buildRows_ok_each _ _ _ hb y hy
      obtain ⟨r, hr, hrθ⟩ := themedRow_ok_present _ _ _ _ hrow θ hθ
      exact absurd hrθ (habs r hr)
  · rintro ⟨y, hy, p, hp, habs⟩
    cases hb : buildRows (fun y2 => subthemedRow (only_paid (fetch city y2)) subthemes []) years with
    | error e =>
      obtain ⟨k, rfl⟩ := subthemedRow_error_key _ _ _ _
        (buildRows_error _ _ _ hb).choose_spec.2
      exact ⟨k, assemble_propagates _ _ _ hb⟩
    | ok rows0 =>
      obtain ⟨row, hrow⟩ := buildRows_ok_each _ _ _ hb y hy
      obtain ⟨r, hr, hr1⟩ := subthemedRow_ok_present _ _ _ _ hrow p hp
      exact absurd hr1 (habs r hr)
  · rintro ⟨y, hy, θ, hθ, habs⟩
    cases hb : buildRows (fun y2 => allSubRow (only_paid (fetch city y2)) themes []) years with
    | error e =>
      obtain ⟨k, rfl⟩ := allSubRow_error_key _ _ _ _
        (buildRows_error _ _ _ hb).choose_spec.2
      exact ⟨k, assemble_propagates _ _ _ hb⟩
    | ok rows0 =>
      obtain ⟨row, hrow⟩ := buildRows_ok_each _ _ _ hb y hy
      obtain ⟨r, hr, hrθ⟩ := allSubRow_ok_present _ _ _ _ hrow θ hθ
      exact absurd hrθ (habs r hr)

/-- C3 amended witness: a year with no data at all makes the themed
construction fail with the theme key. -/
theorem historical_fails_on_absent_selection_witness :
    themedFails (fun _ _ => []) "sao-paulo" [2019] ["Health"] :=
  (historical_fails_on_absent_selection (fun _ _ => [])
    "sao-paulo" [2019] ["Health"] []).1 (by decide)

/-! ### C4: shape of the themed historical table -/

/-- The shape claimed for `themed_historical`: one row per requested
year with the row index equal to the years list verbatim, one column per
requested theme named `"vl_despesa_" ++ θ`, holding that theme's total
paid amount for that year. -/
def themedShape (fetch : String → Nat → ExpenseTable) (city : String)
    (years : List Nat) (themes : List String) : Prop :=
  ∃ rows, get_themed_historical fetch city years themes = Except.ok rows
    ∧ rows.map Prod.fst = years
    ∧ ∀ p ∈ rows,
        (∀ θ ∈ themes, lookupCol p.2 ("vl_despesa_" ++ θ)
            = some (themeTotal (only_paid (fetch city p.1)) θ))
        ∧ (∀ n, n ∈ p.2.map Prod.fst ↔ ∃ θ ∈ themes, n = "vl_despesa_" ++ θ)

/-- C4 amended: whenever at least one theme is requested and every
per-year theme lookup succeeds, `themed_historical` returns one row per
element of the years list (duplicates included, order verbatim), with
exactly one column per requested theme, named by the `vl_despesa_`
prefixed theme and holding the theme's paid total for that year. -/
theorem themed_historical_rows_match_years
    (fetch : String → Nat → ExpenseTable) (city : String) (years : List Nat)
    (themes : List String) (hne : themes ≠ [])
    (hp : ∀ y ∈ years, ∀ θ ∈ themes,
      ∃ r ∈ only_paid (fetch city y), r.ds_funcao_governo = θ) :
    themedShape fetch city years themes := by
  have hex : ∀ y ∈ years, ∃ row,
      themedRow (only_paid (fetch city y)) themes [] = Except.ok row ∧ row ≠ [] := by
    intro y hy
    obtain ⟨row, hrow⟩ := themedRow_ok_exists (only_paid (fetch city y)) themes (hp y hy) []
    refine ⟨row, hrow, ?_⟩
    obtain ⟨θ, hθ⟩ := List.exists_mem_of_ne_nil themes hne
    have hk := (themedRow_ok_keys _ _ _ _ hrow ("vl_despesa_" ++ θ)).2
      (Or.inr ⟨θ, hθ, rfl⟩)
    intro hnil
    rw [hnil] at hk
    simp at hk
  obtain ⟨rows, hasm⟩ := assemble_ok_of
    (fun y => themedRow (only_paid (fetch city y)) themes []) years hex
  obtain ⟨hfst, hmem⟩ := assemble_ok _ years rows hasm
  refine ⟨rows, hasm, hfst, ?_⟩
  intro p hp2
  have hrow := hmem p hp2
  refine ⟨fun θ hθ => themedRow_ok_lookup _ _ _ _ hrow θ hθ, fun n => ?_⟩
  rw [themedRow_ok_keys _ _ _ _ hrow n]
  simp

/-- C4 counterexample: with a nonempty year list and an empty theme list
every (vacuous) per-year lookup succeeds, yet no one-row-per-year table
comes back: each per-year frame stays empty, so the final
`full_df.index = years` assignment fails with a length mismatch. -/
theorem themed_historical_empty_selection_mismatch :
    get_themed_historical (fun _ _ => []) "sao-paulo" [2019] []
      = Except.error HistError.lengthMismatch := rfl

/-- Record source used by the C4 witness: year 2019 pays 150 on
Health/Hospitals, year 2020 pays 200 on Health/Clinics. -/
def sampleFetch : String → Nat → ExpenseTable := fun _ y =>
  if y = 2019 then [⟨"Health", "Hospitals", "Valor Pago", 150⟩]
  else [⟨"Health", "Clinics", "Valor Pago", 200⟩]

/-- C4 amended witness at a concrete two-year request. -/
theorem themed_historical_rows_match_years_witness :
    themedShape sampleFetch "sao-paulo" [2019, 2020] ["Health"] :=
  themed_historical_rows_match_years sampleFetch "sao-paulo" [2019, 2020]
    ["Health"] (by decide) (by decide)

/-! ### C10: subtheme discovery happens on the paid-filtered table -/

/-- C10: in `all_subthemes_historical` the per-year subtheme discovery
runs on the paid-filtered table: when every record of a year carrying a
given (theme, subtheme) pair has a non-paid status, the returned row for
that year has no column for that pair (the naming hypothesis `hinj`
rules out an unrelated pair whose formatted column name collides with
this pair's). -/
theorem all_subthemes_discovery_paid_only
    (fetch : String → Nat → ExpenseTable) (city : String) (years : List Nat)
    (themes : List String) (rows : List (Nat × Row)) (y : Nat) (row : Row)
    (θ s : String)
    (hok : get_all_subthemes_historical fetch city years themes = Except.ok rows)
    (hmem : (y, row) ∈ rows)
    (hnp : ∀ r ∈ fetch city y, r.ds_funcao_governo = θ →
      r.ds_subfuncao_governo = s → r.tp_despesa ≠ paidStatus)
    (hinj : ∀ t ∈ themes, ∀ u ∈ get_all_subthemes_of (only_paid (fetch city y)) t,
      mkSubCol t u = mkSubCol θ s → t = θ ∧ u = s) :
    mkSubCol θ s ∉ row.map Prod.fst := by
  intro hcol
  obtain ⟨_, hmemok⟩ := assemble_ok _ years rows hok
  have hrow : allSubRow (only_paid (fetch city y)) themes [] = Except.ok row :=
    hmemok (y, row) hmem
  rcases (allSubRow_ok_keys _ _ _ _ hrow (mkSubCol θ s)).1 hcol with
    hnil | ⟨t, ht, u, hu, he⟩
  · simp at hnil
  · obtain ⟨hteq, hueq⟩ := hinj t ht u hu he.symm
    subst hteq
    subst hueq
    obtain ⟨r, hr, h1, h2⟩ := (mem_get_all_subthemes_of _ _ _).1 hu
    have hrmem : r ∈ fetch city y := List.mem_of_mem_filter hr
    have hpaid : r.tp_despesa = paidStatus := by
      simpa using List.of_mem_filter hr
    exact hnp r hrmem h1 h2 hpaid

/-- Record source used by the C10 witness: the pair (X, B) occurs only
with a committed (non-paid) status. -/
def fetchMixed : String → Nat → ExpenseTable := fun _ _ =>
  [⟨"X", "A", "Valor Pago", 10⟩, ⟨"X", "B", "Empenhado", 5⟩]

/-- The row the C10 witness construction returns for 2019: a single
column for the paid pair (X, A). -/
def rowX : Row :=
  [(mkSubCol "X" "A", pairTotal (only_paid (fetchMixed "sao-paulo" 2019)) ("X", "A"))]

/-- C10 witness: year 2019's row has a column only for the paid pair
(X, A), none for (X, B). -/
theorem all_subthemes_discovery_paid_only_witness :
    mkSubCol "X" "B" ∉ rowX.map Prod.fst :=
  all_subthemes_discovery_paid_only fetchMixed "sao-paulo" [2019] ["X"]
    [(2019, rowX)] 2019 rowX "X" "B"
    rfl (List.mem_cons_self _ _) (by decide) (by decide)
